import Mathlib

/-!
Shallow embedding of the `todo-rs` terminal to-do application
(`src/main.rs`) and proofs about its specification.

The program is a single-file Rust TUI application.  Its pure core is:

* a task store (`Vec<Task>` plus a selection index) with operations
  `add_task`, `update_task`, `delete_task`, `toggle_completed`;
* a keyword deadline resolver `calculate_deadline` built on the
  `chrono` calendar;
* a modal key dispatcher `process_key_event`;
* custom serde date codecs `serialize_date` / `deserialize_date`
  and the persistence pair `save_tasks` / `load_tasks`.

Calendar values are embedded as civil dates (year, month, day), which
mirrors chrono's `NaiveDate` (a year plus an ordinal).  The chrono
library operations used by the program (`Duration::days` addition,
`weekday().num_days_from_sunday()`, `with_day`, `and_hms_opt`) are
modelled from the chrono semantics, since the library itself is not
part of the repository.  `chrono::Local::now()` is an input: the
functions that read the clock take the current date as a parameter.

A Rust panic (out-of-bounds `Vec` indexing, `Option::unwrap` on
`None`) is modelled by returning `none`.
-/

namespace TodoRs

/-- Civil (proleptic Gregorian) date: model of `chrono::NaiveDate`. -/
structure Date where
  y : Int
  m : Nat
  d : Nat
  deriving DecidableEq

/-- Model of chrono leap-year test (proleptic Gregorian). -/
def isLeapYear (y : Int) : Bool :=
  (y % 4 == 0 && y % 100 != 0) || y % 400 == 0

/-- Number of days in a month of a given year (chrono calendar). -/
def daysInMonth (y : Int) (m : Nat) : Nat :=
  if m = 2 then (if isLeapYear y then 29 else 28)
  else if m = 4 ∨ m = 6 ∨ m = 9 ∨ m = 11 then 30
  else 31

/-- The date is a real calendar date. -/
def Date.Valid (c : Date) : Prop :=
  1 ≤ c.m ∧ c.m ≤ 12 ∧ 1 ≤ c.d ∧ c.d ≤ daysInMonth c.y c.m

instance (c : Date) : Decidable c.Valid := by
  unfold Date.Valid; infer_instance

/-- Successor day in the civil calendar; models `date + Duration::days(1)`. -/
def nextDay (c : Date) : Date :=
  if c.d < daysInMonth c.y c.m then ⟨c.y, c.m, c.d + 1⟩
  else if c.m < 12 then ⟨c.y, c.m + 1, 1⟩
  else ⟨c.y + 1, 1, 1⟩

/-- Predecessor day in the civil calendar; models `date - Duration::days(1)`. -/
def prevDay (c : Date) : Date :=
  if 1 < c.d then ⟨c.y, c.m, c.d - 1⟩
  else if 1 < c.m then ⟨c.y, c.m - 1, daysInMonth c.y (c.m - 1)⟩
  else ⟨c.y - 1, 12, 31⟩

/-- `date + Duration::days(n)` for a non-negative count, by iterating
`nextDay`. -/
def addDays : Nat → Date → Date
  | 0, c => c
  | n + 1, c => addDays n (nextDay c)

/-- Day count since 1970-01-01 (day 0), Howard Hinnant's civil-from-days
formula in floor-division form.  Used to define the weekday; chrono's
internal representation is equivalent. -/
def toDays (c : Date) : Int :=
  let yr : Int := if c.m ≤ 2 then c.y - 1 else c.y
  let era : Int := yr / 400
  let yoe : Int := yr - era * 400
  let mp : Int := ((c.m : Int) + 9) % 12
  let doy : Int := (153 * mp + 2) / 5 + (c.d : Int) - 1
  let doe : Int := yoe * 365 + yoe / 4 - yoe / 100 + doy
  era * 146097 + doe - 719468

/-- Model of `weekday().num_days_from_sunday()`: 0 = Sunday … 6 = Saturday.
1970-01-01 (day 0) was a Thursday, hence the offset 4. -/
def numDaysFromSunday (c : Date) : Nat :=
  ((toDays c + 4) % 7).toNat

/-- Model of `chrono::NaiveDate::with_day`: replace the day-of-month,
`none` when the resulting date would be invalid (in particular for
day 0, which chrono rejects). -/
def with_day (c : Date) (d : Nat) : Option Date :=
  if 1 ≤ d ∧ d ≤ daysInMonth c.y c.m then some ⟨c.y, c.m, d⟩ else none

/-- Model of `checked_add_signed(Duration::days(1))` (the chrono overflow
bound is far outside any state this program reaches, so the addition is
modelled as always succeeding). -/
def checked_add_day (c : Date) : Option Date :=
  some (nextDay c)

/-- Model of `chrono::NaiveDateTime`: a civil date plus a time of day. -/
structure DateTime where
  date : Date
  hour : Nat
  minute : Nat
  second : Nat
  deriving DecidableEq

/-- `and_hms_opt(0, 0, 0).unwrap()`: midnight of the given date (always
valid, so the unwrap never fails). -/
def atMidnight (c : Date) : DateTime :=
  ⟨c, 0, 0, 0⟩

/-- `calculate_deadline` from `src/main.rs`, with `chrono::Local::now`
passed in as the `today` parameter. -/
def calculate_deadline (option : String) (today : Date) : Option DateTime :=
  if option = "Today" then some (atMidnight today)
  else if option = "Tomorrow" then some (atMidnight (nextDay today))
  else if option = "This Week" then
    let days_until_end_of_week := 6 - numDaysFromSunday today
    some (atMidnight (addDays days_until_end_of_week today))
  else if option = "This Month" then
    let first_day_next_month :=
      (with_day today 0).bind (fun date => checked_add_day date)
    first_day_next_month.map (fun date => atMidnight (prevDay date))
  else none

/-- `Task` from `src/main.rs`. -/
structure Task where
  description : String
  completed : Bool
  deadline : Option DateTime
  deriving DecidableEq

/-- `Task::new`. -/
def Task.new (description : String) (deadline : Option DateTime) : Task :=
  ⟨description, false, deadline⟩

/-- `Task::toggle_completed`. -/
def Task.toggle_completed (t : Task) : Task :=
  { t with completed := !t.completed }

/-- `Mode` from `src/main.rs`. -/
inductive Mode where
  | Normal
  | Input
  | Edit
  | DeleteConfirm
  | DeadlineInput
  deriving DecidableEq

/-- `AppState` from `src/main.rs`. -/
structure AppState where
  tasks : List Task
  input : String
  mode : Mode
  selected_task : Option Nat
  temp_description : String
  setting_deadline : Bool
  deriving DecidableEq

/-- `AppState::new`. -/
def AppState.new : AppState :=
  { tasks := []
    input := ""
    mode := Mode.Normal
    selected_task := some 0
    temp_description := ""
    setting_deadline := false }

/-- `AppState::add_task`: push a fresh task at the end of the list. -/
def add_task (s : AppState) (description : String)
    (deadline : Option DateTime) : AppState :=
  { s with tasks := s.tasks ++ [Task.new description deadline] }

/-- `AppState::update_task`: overwrite description and deadline of the
selected task; silently does nothing when the selection is `None` or out
of range (`get_mut` returns `None`). -/
def update_task (s : AppState) (description : String)
    (deadline : Option DateTime) : AppState :=
  match s.selected_task with
  | none => s
  | some index =>
    match s.tasks.get? index with
    | none => s
    | some task =>
      { s with tasks :=
          s.tasks.set index { task with description := description, deadline := deadline } }

/-- `AppState::delete_task`: remove the selected task when the selection
is in range, otherwise do nothing. -/
def delete_task (s : AppState) : AppState :=
  match s.selected_task with
  | none => s
  | some index =>
    if index < s.tasks.length then { s with tasks := s.tasks.eraseIdx index }
    else s

/-- The subset of `termion::event::Key` the dispatcher distinguishes.
`Enter` arrives as `Key::Char('\n')`, exactly as in termion. -/
inductive Key where
  | Char (c : Char)
  | Backspace
  | Up
  | Down
  | Esc
  deriving DecidableEq

/-- `process_key_event` from `src/main.rs`.  Returns `none` when the Rust
code would panic (the out-of-bounds indexing in the `'e'` arm), otherwise
`some` of the updated state and the continue flag (`false` = quit). -/
def process_key_event (today : Date) (key : Key) (s : AppState) :
    Option (AppState × Bool) :=
  match s.mode with
  | Mode.Normal =>
    match key with
    | Key.Char c =>
      if c = 'q' then some (s, false)
      else if c = 'n' then
        some ({ s with mode := Mode.Input, input := "" }, true)
      else if c = 'd' ∧ s.selected_task.isSome then
        some ({ s with mode := Mode.DeleteConfirm }, true)
      else if c = 'e' ∧ s.selected_task.isSome then
        match s.selected_task with
        | none => none
        | some index =>
          match s.tasks.get? index with
          | none => none
          | some task =>
            some ({ s with mode := Mode.Edit, input := task.description }, true)
      else if c = 'c' ∧ s.selected_task.isSome then
        match s.selected_task with
        | none => some (s, true)
        | some index =>
          match s.tasks.get? index with
          | none => some (s, true)
          | some task =>
            some ({ s with tasks := s.tasks.set index task.toggle_completed }, true)
      else some (s, true)
    | Key.Up =>
      match s.selected_task with
      | some selected => some ({ s with selected_task := some (selected - 1) }, true)
      | none => some (s, true)
    | Key.Down =>
      match s.selected_task with
      | some selected =>
        some ({ s with selected_task := some (min (selected + 1) (s.tasks.length - 1)) }, true)
      | none => some (s, true)
    | _ => some (s, true)
  | Mode.DeleteConfirm =>
    match key with
    | Key.Char c =>
      if c = 'd' then some ({ delete_task s with mode := Mode.Normal }, true)
      else some ({ s with mode := Mode.Normal }, true)
    | _ => some ({ s with mode := Mode.Normal }, true)
  | Mode.Input | Mode.Edit =>
    match key with
    | Key.Char c =>
      if c = '\n' then
        if !s.setting_deadline then
          some ({ s with temp_description := s.input, input := "",
                         mode := Mode.DeadlineInput }, true)
        else some (s, true)
      else some ({ s with input := s.input.push c }, true)
    | Key.Backspace =>
      some ({ s with input := s.input.dropRight 1 }, true)
    | _ => some (s, true)
  | Mode.DeadlineInput =>
    match key with
    | Key.Char c =>
      if c = '1' then some ({ s with input := "Today" }, true)
      else if c = '2' then some ({ s with input := "Tomorrow" }, true)
      else if c = '3' then some ({ s with input := "This Week" }, true)
      else if c = '4' then some ({ s with input := "This Month" }, true)
      else if c = 'q' then some ({ s with mode := Mode.Normal }, true)
      else if c = '\n' then
        let deadline_option := s.input
        let deadline := calculate_deadline deadline_option today
        let description := s.temp_description
        let s1 := { s with temp_description := "" }
        let s2 :=
          if s1.mode = Mode.Edit then update_task s1 description deadline
          else add_task s1 description deadline
        some ({ s2 with mode := Mode.Normal }, true)
      else some (s, true)
    | Key.Esc => some ({ s with mode := Mode.Normal }, true)
    | _ => some (s, true)

/-- Run the dispatcher over a list of keys (the main loop), stopping with
`none` if any step panics.  The continue flag is not consulted: we only
ever feed sequences whose quit, if any, is the final key. -/
def applyKeys (today : Date) : List Key → AppState → Option AppState
  | [], s => some s
  | k :: ks, s =>
    match process_key_event today k s with
    | none => none
    | some (s', _) => applyKeys today ks s'

/-- A fixed current date used by the concrete scenario theorems
(2024-02-15, a Thursday). -/
def sampleToday : Date := ⟨2024, 2, 15⟩

/-- Starting state of the C1 scenario: one task, selected, Normal mode. -/
def c1_start : AppState :=
  { AppState.new with tasks := [⟨"", false, none⟩] }

/-- Keys of the C1 scenario: `e`, type "buy milk", Enter, `1`, Enter. -/
def c1_keys : List Key :=
  Key.Char 'e' :: ("buy milk".toList.map Key.Char)
    ++ [Key.Char '\n', Key.Char '1', Key.Char '\n']

/-- The state the dispatcher actually reaches in the C1 scenario. -/
def c1_final : AppState :=
  { tasks := [⟨"", false, none⟩,
              ⟨"buy milk", false, some (atMidnight sampleToday)⟩]
    input := "Today"
    mode := Mode.Normal
    selected_task := some 0
    temp_description := ""
    setting_deadline := false }

/-- C1: pressing `e` on a selected task, typing "buy milk", Enter, `1`,
Enter does NOT update the selected task: the `if let Mode::Edit` test in
the DeadlineInput commit arm reads a mode that is already `DeadlineInput`,
so `update_task` is unreachable and `add_task` runs instead.  The store
grows from one task to two, the selected task keeps its old description,
and the typed description is appended as a new task. -/
theorem edit_commit_appends :
    applyKeys sampleToday c1_keys c1_start = some c1_final ∧
    c1_final.tasks.length = 2 ∧
    c1_final.tasks.get? 0 = some ⟨"", false, none⟩ ∧
    c1_final.tasks.get? 1 = some ⟨"buy milk", false, some (atMidnight sampleToday)⟩ ∧
    c1_final.mode = Mode.Normal :=
  ⟨rfl, rfl, rfl, rfl, rfl⟩

/-- C2: the deadline resolver applied to "This Month" returns `none` for
every current date: `with_day(0)` asks chrono for day 0 of the month,
which is never a valid date, so the whole chain short-circuits to `None`
instead of producing the last day of the month. -/
theorem this_month_is_none (today : Date) :
    calculate_deadline "This Month" today = none := rfl

/-- C4: pressing `e` in Normal mode on the initial state (empty task
list, `selected_task = Some(0)`) panics: the guard only checks that a
selection exists, then indexes `tasks[0]` on an empty vector. -/
theorem key_e_on_empty_panics :
    process_key_event sampleToday (Key.Char 'e') AppState.new = none := rfl

/-- C9: `delete_task` is a no-op — the whole state, task list and
selection included, is unchanged and no failure is raised — whenever the
store is empty, the selection is `None`, or the selection is out of
range. -/
theorem delete_out_of_range_noop (s : AppState)
    (h : s.tasks = [] ∨ s.selected_task = none ∨
         ∀ i, s.selected_task = some i → s.tasks.length ≤ i) :
    delete_task s = s := by
  unfold delete_task
  cases hsel : s.selected_task with
  | none => rfl
  | some index =>
    have hle : s.tasks.length ≤ index := by
      rcases h with h | h | h
      · simp [h]
      · simp [hsel] at h
      · exact h index hsel
    simp [Nat.not_lt.mpr hle]

/-- Witness for C9 at the initial state (empty store, selection 0). -/
theorem delete_out_of_range_noop_witness :
    delete_task AppState.new = AppState.new :=
  delete_out_of_range_noop AppState.new (Or.inl rfl)

/-- A state with one task but a far out-of-range selection. -/
def c8_state : AppState :=
  { AppState.new with tasks := [⟨"a", false, none⟩], selected_task := some 3 }

/-- C8 counterexample: with one task and selection 3, moving up yields
selection 2 — the selection changes by exactly the delta but is NOT
clamped into `[0, len-1]`, contradicting the claim's unconditional
`clamp(selected + delta, 0, len-1)` description. -/
theorem move_up_not_clamped :
    process_key_event sampleToday Key.Up c8_state =
      some ({ c8_state with selected_task := some 2 }, true) ∧
    ¬ (2 ≤ c8_state.tasks.length - 1) :=
  ⟨rfl, by decide⟩

/-- C8 (amended): for a selection that is at most `len` — which every
reachable state satisfies — the moves saturate exactly as described:
up from 0 stays at 0, on an empty list both moves stay at 0, and
otherwise the result of either move lies in `[0, len-1]`; down clamps to
the last index and up subtracts one (saturating at zero). -/
theorem move_selection_saturates (today : Date) (s : AppState) (i : Nat)
    (hmode : s.mode = Mode.Normal) (hsel : s.selected_task = some i)
    (hle : i ≤ s.tasks.length) :
    process_key_event today Key.Up s =
      some ({ s with selected_task := some (i - 1) }, true) ∧
    process_key_event today Key.Down s =
      some ({ s with selected_task := some (min (i + 1) (s.tasks.length - 1)) }, true) ∧
    (i = 0 → i - 1 = 0) ∧
    (s.tasks.length = 0 → i - 1 = 0 ∧ min (i + 1) (s.tasks.length - 1) = 0) ∧
    (0 < s.tasks.length → i - 1 ≤ s.tasks.length - 1 ∧
      min (i + 1) (s.tasks.length - 1) ≤ s.tasks.length - 1) := by
  refine ⟨?_, ?_, ?_, ?_, ?_⟩
  · simp [process_key_event, hmode, hsel]
  · simp [process_key_event, hmode, hsel]
  · omega
  · omega
  · omega

/-- A one-task state with the initial selection 0. -/
def c8_witness_state : AppState :=
  { AppState.new with tasks := [⟨"a", false, none⟩] }

/-- Witness for the amended C8 at a one-task store with selection 0. -/
theorem move_selection_saturates_witness :
    process_key_event sampleToday Key.Up c8_witness_state =
      some ({ c8_witness_state with selected_task := some 0 }, true) :=
  (move_selection_saturates sampleToday c8_witness_state 0 rfl rfl (by decide)).1

/-- Running the key loop over an appended list, given the result of the
first part. -/
theorem applyKeys_append_of (today : Date) {l1 : List Key} {s s1 : AppState}
    (h : applyKeys today l1 s = some s1) (l2 : List Key) :
    applyKeys today (l1 ++ l2) s = applyKeys today l2 s1 := by
  induction l1 generalizing s with
  | nil =>
    simp only [applyKeys] at h
    cases h
    simp
  | cons k l1 ih =>
    rw [List.cons_append]
    simp only [applyKeys] at h ⊢
    cases hp : process_key_event today k s with
    | none => rw [hp] at h; simp at h
    | some p =>
      rw [hp] at h
      obtain ⟨s2, b2⟩ := p
      exact ih h

/-- Typing characters other than newline in Input mode only grows the
input buffer: every other field of the state is untouched. -/
theorem typing_keeps_state (today : Date) (cs : List Char) :
    ∀ s : AppState, s.mode = Mode.Input → '\n' ∉ cs →
      ∃ inp, applyKeys today (cs.map Key.Char) s = some { s with input := inp } := by
  induction cs with
  | nil =>
    intro s _ _
    exact ⟨s.input, rfl⟩
  | cons c cs ih =>
    intro s hmode hni
    have hc : ¬ c = '\n' := fun hc => hni (hc ▸ List.mem_cons_self c cs)
    have hstep : process_key_event today (Key.Char c) s =
        some ({ s with input := s.input.push c }, true) := by
      simp [process_key_event, hmode, hc]
    obtain ⟨inp, hrest⟩ := ih { s with input := s.input.push c } hmode
      (fun hmem => hni (List.mem_cons_of_mem _ hmem))
    exact ⟨inp, by simp only [List.map_cons, applyKeys, hstep]; exact hrest⟩

/-- C7: abandoning from DeadlineInput.  First, pressing `q` or Escape in
DeadlineInput mode changes nothing but the mode, which becomes Normal: no
task is created or updated, the store and the selection are untouched
(the pending `temp_description` is simply never committed).  Second, for
the whole deferred-add sequence: from any Normal state, pressing `n`,
typing any characters, pressing Enter and then `q` leaves the task list
exactly as it was before the `n` keypress, with mode back to Normal. -/
theorem deadline_input_abandon (today : Date) :
    (∀ s : AppState, s.mode = Mode.DeadlineInput →
      process_key_event today (Key.Char 'q') s =
        some ({ s with mode := Mode.Normal }, true) ∧
      process_key_event today Key.Esc s =
        some ({ s with mode := Mode.Normal }, true)) ∧
    (∀ (s s' : AppState) (cs : List Char), s.mode = Mode.Normal →
      s.setting_deadline = false → '\n' ∉ cs →
      applyKeys today
        (Key.Char 'n' :: cs.map Key.Char ++ [Key.Char '\n', Key.Char 'q']) s =
        some s' →
      s'.tasks = s.tasks ∧ s'.mode = Mode.Normal ∧
        s'.selected_task = s.selected_task) := by
  constructor
  · intro s hmode
    constructor
    · simp [process_key_event, hmode]
    · simp [process_key_event, hmode]
  · intro s s' cs hmode hsd hni happly
    have h1 : applyKeys today [Key.Char 'n'] s =
        some { s with mode := Mode.Input, input := "" } := by
      simp [applyKeys, process_key_event, hmode]
    obtain ⟨inp, htype⟩ :=
      typing_keeps_state today cs { s with mode := Mode.Input, input := "" } rfl hni
    have hsplit : (Key.Char 'n' :: cs.map Key.Char ++ [Key.Char '\n', Key.Char 'q']) =
        [Key.Char 'n'] ++ (cs.map Key.Char ++ [Key.Char '\n', Key.Char 'q']) := rfl
    rw [hsplit, applyKeys_append_of today h1, applyKeys_append_of today htype] at happly
    have htail : applyKeys today [Key.Char '\n', Key.Char 'q']
        { { s with mode := Mode.Input, input := "" } with input := inp } =
        some { s with mode := Mode.Normal, input := "", temp_description := inp } := by
      simp [applyKeys, process_key_event, hsd]
    rw [htail] at happly
    cases happly
    exact ⟨rfl, rfl, rfl⟩

/-- Witness for C7 applied at a concrete DeadlineInput state and at the
concrete sequence `n`, "hi", Enter, `q` from the initial state. -/
theorem deadline_input_abandon_witness :
    process_key_event sampleToday (Key.Char 'q')
      { AppState.new with mode := Mode.DeadlineInput } =
      some ({ AppState.new with mode := Mode.Normal }, true) :=
  ((deadline_input_abandon sampleToday).1
    { AppState.new with mode := Mode.DeadlineInput } rfl).1

/-- Keys that fall through every arm of the DeadlineInput handler:
anything other than `1`-`4`, `q`, Enter and Escape. -/
def DeadlineNoop (k : Key) : Prop :=
  k ≠ Key.Char '1' ∧ k ≠ Key.Char '2' ∧ k ≠ Key.Char '3' ∧ k ≠ Key.Char '4' ∧
  k ≠ Key.Char 'q' ∧ k ≠ Key.Char '\n' ∧ k ≠ Key.Esc

instance (k : Key) : Decidable (DeadlineNoop k) := by
  unfold DeadlineNoop; infer_instance

/-- In DeadlineInput mode, keys matched by no arm leave the state
untouched. -/
theorem deadline_noop_keys (today : Date) (ks : List Key) :
    ∀ s : AppState, s.mode = Mode.DeadlineInput → (∀ k ∈ ks, DeadlineNoop k) →
      applyKeys today ks s = some s := by
  induction ks with
  | nil => intro s _ _; rfl
  | cons k ks ih =>
    intro s hmode hks
    obtain ⟨h1, h2, h3, h4, hq, hn, hesc⟩ := hks k (List.mem_cons_self k ks)
    have hstep : process_key_event today k s = some (s, true) := by
      cases k with
      | Char c =>
        have hc1 : ¬ c = '1' := fun h => h1 (by rw [h])
        have hc2 : ¬ c = '2' := fun h => h2 (by rw [h])
        have hc3 : ¬ c = '3' := fun h => h3 (by rw [h])
        have hc4 : ¬ c = '4' := fun h => h4 (by rw [h])
        have hcq : ¬ c = 'q' := fun h => hq (by rw [h])
        have hcn : ¬ c = '\n' := fun h => hn (by rw [h])
        simp [process_key_event, hmode, hc1, hc2, hc3, hc4, hcq, hcn]
      | Esc => exact absurd rfl hesc
      | Backspace => simp [process_key_event, hmode]
      | Up => simp [process_key_event, hmode]
      | Down => simp [process_key_event, hmode]
    simp only [applyKeys, hstep]
    exact ih s hmode (fun k hk => hks k (List.mem_cons_of_mem _ hk))

/-- C10: entering DeadlineInput by pressing Enter in Input mode and then
committing with Enter — with any number of keys in between that hit no
DeadlineInput arm (in particular, never pressing `1`-`4`) — appends a
task whose description is the captured `temp_description` and whose
deadline is `None`: the input buffer was cleared on the transition, and
resolving a string that is none of the four keywords yields `None`. -/
theorem input_enter_enter_adds (today : Date) (s : AppState) (ks : List Key)
    (hmode : s.mode = Mode.Input) (hsd : s.setting_deadline = false)
    (hks : ∀ k ∈ ks, DeadlineNoop k) :
    applyKeys today (Key.Char '\n' :: ks ++ [Key.Char '\n']) s =
      some { s with tasks := s.tasks ++ [Task.new s.input none],
                    input := "", temp_description := "", mode := Mode.Normal } := by
  have h1 : applyKeys today [Key.Char '\n'] s =
      some { s with temp_description := s.input, input := "",
                    mode := Mode.DeadlineInput } := by
    simp [applyKeys, process_key_event, hmode, hsd]
  have hsplit : (Key.Char '\n' :: ks ++ [Key.Char '\n']) =
      [Key.Char '\n'] ++ (ks ++ [Key.Char '\n']) := rfl
  rw [hsplit, applyKeys_append_of today h1,
      applyKeys_append_of today (deadline_noop_keys today ks _ rfl hks)]
  simp [applyKeys, process_key_event, calculate_deadline, add_task, Task.new]

/-- The concrete C10 start state: Input mode with "hello" typed. -/
def c10_state : AppState :=
  { AppState.new with mode := Mode.Input, input := "hello" }

/-- Witness for C10: Enter, a stray `x`, Enter from `c10_state` appends
the task ("hello", not completed, no deadline). -/
theorem input_enter_enter_adds_witness :
    applyKeys sampleToday (Key.Char '\n' :: [Key.Char 'x'] ++ [Key.Char '\n'])
      c10_state =
      some { c10_state with tasks := c10_state.tasks ++ [Task.new c10_state.input none],
                            input := "", temp_description := "",
                            mode := Mode.Normal } :=
  input_enter_enter_adds sampleToday c10_state [Key.Char 'x'] rfl rfl (by decide)

/-- C3 counterexample keys: add "a", add "b" (each via `n`, a character,
Enter, Enter), move the selection down, then delete with `d` `d`. -/
def c3_keys : List Key :=
  [Key.Char 'n', Key.Char 'a', Key.Char '\n', Key.Char '\n',
   Key.Char 'n', Key.Char 'b', Key.Char '\n', Key.Char '\n',
   Key.Down, Key.Char 'd', Key.Char 'd']

/-- The state the C3 counterexample sequence reaches. -/
def c3_final : AppState :=
  { tasks := [⟨"a", false, none⟩]
    input := ""
    mode := Mode.Normal
    selected_task := some 1
    temp_description := ""
    setting_deadline := false }

/-- C3 counterexample: a dispatcher-driven sequence of two adds, a
selection move and a delete ends with a non-empty store whose selection,
1, is NOT within `[0, len-1] = [0, 0]`: `delete_task` never clamps the
selection after removing the last element. -/
theorem selection_validity_cex :
    applyKeys sampleToday c3_keys AppState.new = some c3_final ∧
    c3_final.tasks ≠ [] ∧
    c3_final.selected_task = some 1 ∧
    ¬ (1 ≤ c3_final.tasks.length - 1) :=
  ⟨rfl, by decide, rfl, by decide⟩

/-- The invariant the operations actually maintain: a present selection
never exceeds the list length (it may equal it, dangling one past the
end). -/
def SelInv (s : AppState) : Prop :=
  ∀ i, s.selected_task = some i → i ≤ s.tasks.length

/-- C3 (amended): every key-dispatcher step and every direct `add_task` /
`delete_task` call preserves `selected_index ≤ len` (so after any
sequence of operations from the initial state the selection, when the
list is non-empty, is within `[0, len]`); the stricter `[0, len-1]` of
the original claim is refuted by `selection_validity_cex`. -/
theorem selection_bound_invariant (today : Date) :
    (∀ (k : Key) (s s' : AppState) (b : Bool), SelInv s →
      process_key_event today k s = some (s', b) → SelInv s') ∧
    (∀ (ks : List Key) (s s' : AppState), SelInv s →
      applyKeys today ks s = some s' → SelInv s') ∧
    (∀ (s : AppState) (d : String) (dl : Option DateTime), SelInv s →
      SelInv (add_task s d dl)) ∧
    (∀ s : AppState, SelInv s → SelInv (delete_task s)) ∧
    SelInv AppState.new := by
  have hstep : ∀ (k : Key) (s s' : AppState) (b : Bool), SelInv s →
      process_key_event today k s = some (s', b) → SelInv s' := by
    intro k s s' b hinv hstep
    obtain ⟨tasks, input, mode, sel, temp, sd⟩ := s
    cases mode <;> cases k <;>
      simp only [process_key_event, delete_task, add_task, update_task,
        Task.new] at hstep <;>
      (repeat' split at hstep) <;>
      simp only [Option.some.injEq, Prod.mk.injEq, reduceCtorEq] at hstep <;>
      obtain ⟨rfl, rfl⟩ := hstep <;>
      (try simp only [SelInv, Option.some.injEq, forall_eq'] at hinv) <;>
      intro i hi <;>
      (try simp only [Option.some.injEq, List.length_eraseIdx, List.length_append,
        List.length_set, List.length_cons, List.length_nil] at hi ⊢) <;>
      (first
       | exact hinv i hi
       | omega
       | (split <;> omega)
       | (have hx := hinv i hi; omega))
  refine ⟨hstep, ?_, ?_, ?_, ?_⟩
  · intro ks
    induction ks with
    | nil =>
      intro s s' hinv happ
      simp only [applyKeys, Option.some.injEq] at happ
      exact happ ▸ hinv
    | cons k ks ih =>
      intro s s' hinv happ
      simp only [applyKeys] at happ
      cases hp : process_key_event today k s with
      | none => rw [hp] at happ; simp at happ
      | some p =>
        rw [hp] at happ
        obtain ⟨s1, b1⟩ := p
        exact ih s1 s' (hstep k s s1 b1 hinv hp) happ
  · intro s d dl hinv i hi
    simp only [add_task] at hi ⊢
    have hx := hinv i hi
    simp only [List.length_append, List.length_cons, List.length_nil]
    omega
  · intro s hinv i hi
    unfold delete_task at hi ⊢
    cases hsel : s.selected_task with
    | none => simp only [hsel] at hi ⊢; simp at hi
    | some j =>
      simp only [hsel] at hi ⊢
      by_cases hj : j < s.tasks.length
      · simp only [if_pos hj] at hi ⊢
        simp only [Option.some.injEq] at hi
        have hx := hinv j hsel
        simp only [List.length_eraseIdx]
        rw [if_pos hj]
        omega
      · simp only [if_neg hj] at hi ⊢
        exact hinv i hi
  · intro i hi
    simp only [AppState.new, Option.some.injEq] at hi
    simp only [AppState.new, List.length_nil]
    omega

/-- Every month has at least one day. -/
theorem daysInMonth_pos (y : Int) (m : Nat) : 1 ≤ daysInMonth y m := by
  unfold daysInMonth
  split_ifs <;> omega

/-- The Boolean leap-year test, as an arithmetic proposition. -/
theorem isLeapYear_iff (y : Int) :
    isLeapYear y = true ↔ (y % 4 = 0 ∧ y % 100 ≠ 0) ∨ y % 400 = 0 := by
  unfold isLeapYear
  simp [Bool.or_eq_true, Bool.and_eq_true, beq_iff_eq, bne_iff_ne]

/-- `nextDay` maps valid dates to valid dates. -/
theorem nextDay_valid (c : Date) (h : c.Valid) : (nextDay c).Valid := by
  obtain ⟨y, m, d⟩ := c
  obtain ⟨hm1, hm2, hd1, hd2⟩ := h
  unfold nextDay Date.Valid
  dsimp only at *
  by_cases hlt : d < daysInMonth y m
  · rw [if_pos hlt]
    exact ⟨hm1, hm2, Nat.succ_le_succ (Nat.zero_le d), hlt⟩
  · by_cases hm12 : m < 12
    · rw [if_neg hlt, if_pos hm12]
      refine ⟨?_, ?_, ?_, ?_⟩ <;> dsimp only
      · omega
      · omega
      · omega
      · exact daysInMonth_pos y (m + 1)
    · rw [if_neg hlt, if_neg hm12]
      refine ⟨?_, ?_, ?_, ?_⟩ <;> dsimp only
      · omega
      · omega
      · omega
      · exact daysInMonth_pos (y + 1) 1

/-- The day count of the successor day is one more: the civil successor
function and the Hinnant day-count formula agree. -/
theorem toDays_nextDay (c : Date) (h : c.Valid) :
    toDays (nextDay c) = toDays c + 1 := by
  obtain ⟨y, m, d⟩ := c
  obtain ⟨hm1, hm2, hd1, hd2⟩ := h
  dsimp only at *
  unfold nextDay
  dsimp only
  by_cases hlt : d < daysInMonth y m
  · rw [if_pos hlt]
    by_cases hm : m ≤ 2
    · simp only [toDays]
      push_cast
      omega
    · simp only [toDays]
      push_cast
      omega
  · rw [if_neg hlt]
    have hd : d = daysInMonth y m := le_antisymm hd2 (Nat.le_of_not_lt hlt)
    subst hd
    by_cases hm12 : m < 12
    · rw [if_pos hm12]
      interval_cases m
      · norm_num [toDays, daysInMonth]
        omega
      · cases hL : isLeapYear y with
        | false =>
          have hL2 : ¬ ((y % 4 = 0 ∧ y % 100 ≠ 0) ∨ y % 400 = 0) := by
            rw [← isLeapYear_iff, hL]
            simp
          norm_num [toDays, daysInMonth, hL]
          omega
        | true =>
          have hL2 : (y % 4 = 0 ∧ y % 100 ≠ 0) ∨ y % 400 = 0 := (isLeapYear_iff y).mp hL
          norm_num [toDays, daysInMonth, hL]
          omega
      all_goals norm_num [toDays, daysInMonth]
      all_goals omega
    · rw [if_neg hm12]
      have hm' : m = 12 := by omega
      subst hm'
      norm_num [toDays, daysInMonth]
      omega

/-- Adding `n` days preserves validity and advances the day count by
exactly `n`. -/
theorem addDays_spec (n : Nat) : ∀ c : Date, c.Valid →
    (addDays n c).Valid ∧ toDays (addDays n c) = toDays c + n := by
  induction n with
  | zero =>
    intro c h
    exact ⟨h, by simp [addDays]⟩
  | succ n ih =>
    intro c h
    obtain ⟨hv, ht⟩ := ih (nextDay c) (nextDay_valid c h)
    refine ⟨hv, ?_⟩
    rw [addDays, ht, toDays_nextDay c h]
    push_cast
    ring

/-- C5 counterexample: at today = 2024-02-15 (a Thursday) the "This
Week" deadline is 2024-02-17, whose `num_days_from_sunday` is 6 — a
SATURDAY — while the upcoming Sunday is 2024-02-18.  The resolver does
not return the upcoming Sunday. -/
theorem this_week_cex :
    calculate_deadline "This Week" sampleToday = some (atMidnight ⟨2024, 2, 17⟩) ∧
    numDaysFromSunday ⟨2024, 2, 17⟩ = 6 ∧
    numDaysFromSunday ⟨2024, 2, 18⟩ = 0 :=
  ⟨rfl, rfl, rfl⟩

/-- C5 (amended): for every valid current date, "This Week" resolves to
`Some` of midnight of today plus `6 - num_days_from_sunday(today)` days,
which is the upcoming SATURDAY — the last day of a week that starts on
Sunday — not the upcoming Sunday; the offset never exceeds 6 days. -/
theorem this_week_saturday (today : Date) (h : today.Valid) :
    calculate_deadline "This Week" today =
      some (atMidnight (addDays (6 - numDaysFromSunday today) today)) ∧
    numDaysFromSunday (addDays (6 - numDaysFromSunday today) today) = 6 ∧
    6 - numDaysFromSunday today ≤ 6 := by
  refine ⟨rfl, ?_, by omega⟩
  obtain ⟨hv, ht⟩ := addDays_spec (6 - numDaysFromSunday today) today h
  unfold numDaysFromSunday at ht ⊢
  rw [ht]
  omega

/-- Witness for the amended C5 at the concrete date 2024-02-15. -/
theorem this_week_saturday_witness :
    numDaysFromSunday (addDays (6 - numDaysFromSunday sampleToday) sampleToday) = 6 :=
  (this_week_saturday sampleToday (by decide)).2.1

/-- The datetimes the serde date format `%Y-%m-%d %H:%M:%S` covers in this
model: a valid calendar date with a four-digit year and an in-range time. -/
def DateTime.Valid (t : DateTime) : Prop :=
  0 ≤ t.date.y ∧ t.date.y < 10000 ∧ t.date.Valid ∧
    t.hour < 24 ∧ t.minute < 60 ∧ t.second < 60

instance (t : DateTime) : Decidable t.Valid := by
  unfold DateTime.Valid; infer_instance

/-- The ASCII digit character for one decimal digit. -/
def digitChar (d : Nat) : Char := Char.ofNat (48 + d)

/-- `n` printed as exactly `k` zero-padded decimal digits, most
significant first: the `%04`/`%02` numeric fields of chrono's `format`. -/
def padDigits : Nat → Nat → List Char
  | 0, _ => []
  | k + 1, n => digitChar (n / 10 ^ k) :: padDigits k (n % 10 ^ k)

/-- `d.format("%Y-%m-%d %H:%M:%S")`: the characters chrono produces. -/
def formatDateTime (t : DateTime) : List Char :=
  padDigits 4 t.date.y.toNat ++
    ('-' :: (padDigits 2 t.date.m ++
      ('-' :: (padDigits 2 t.date.d ++
        (' ' :: (padDigits 2 t.hour ++
          (':' :: (padDigits 2 t.minute ++
            (':' :: padDigits 2 t.second)))))))))

/-- `serialize_date` from `src/main.rs`: `Some` is written as the
formatted string, `None` as null. -/
def serialize_date (date : Option DateTime) : Option String :=
  date.map (fun d => String.mk (formatDateTime d))

/-- Read exactly `k` ASCII digits, accumulating left to right. -/
def readDigits : Nat → Nat → List Char → Option (Nat × List Char)
  | 0, acc, rest => some (acc, rest)
  | _ + 1, _, [] => none
  | k + 1, acc, c :: rest =>
    if 48 ≤ c.toNat ∧ c.toNat ≤ 57 then
      readDigits k (acc * 10 + (c.toNat - 48)) rest
    else none

/-- Consume one expected literal character. -/
def expectChar (c : Char) : List Char → Option (List Char)
  | [] => none
  | x :: rest => if x = c then some rest else none

/-- `NaiveDateTime::parse_from_str(s, "%Y-%m-%d %H:%M:%S")` on the padded
strings the formatter emits: reads the six numeric fields and the literal
separators, requires the whole input consumed, and validates the calendar
date and the time of day as chrono does. -/
def parseDateTime (l : List Char) : Option DateTime :=
  (readDigits 4 0 l).bind fun p1 =>
  (expectChar '-' p1.2).bind fun l1 =>
  (readDigits 2 0 l1).bind fun p2 =>
  (expectChar '-' p2.2).bind fun l2 =>
  (readDigits 2 0 l2).bind fun p3 =>
  (expectChar ' ' p3.2).bind fun l3 =>
  (readDigits 2 0 l3).bind fun p4 =>
  (expectChar ':' p4.2).bind fun l4 =>
  (readDigits 2 0 l4).bind fun p5 =>
  (expectChar ':' p5.2).bind fun l5 =>
  (readDigits 2 0 l5).bind fun p6 =>
  if p6.2 = [] ∧ (⟨(p1.1 : Int), p2.1, p3.1⟩ : Date).Valid ∧
      p4.1 < 24 ∧ p5.1 < 60 ∧ p6.1 < 60 then
    some ⟨⟨(p1.1 : Int), p2.1, p3.1⟩, p4.1, p5.1, p6.1⟩
  else none

/-- `deserialize_date` from `src/main.rs`: null is `Ok(None)`, a string
is parsed (outer `none` models the `Err` case). -/
def deserialize_date : Option String → Option (Option DateTime)
  | none => some none
  | some str => (parseDateTime str.data).map some

/-- One serialized task record, as serde writes it to `tasks.json` (the
JSON object layer itself round-trips structurally and is modelled as the
record). -/
structure SavedTask where
  description : String
  completed : Bool
  deadline : Option String
  deriving DecidableEq

/-- `AppState::save_tasks`: keep only the non-completed tasks, in order,
serializing each deadline with `serialize_date`. -/
def save_tasks (tasks : List Task) : List SavedTask :=
  (tasks.filter (fun t => !t.completed)).map
    (fun t => ⟨t.description, t.completed, serialize_date t.deadline⟩)

/-- `AppState::load_tasks` on a file that exists and parses: deserialize
every record (any date parse error fails the whole load, as
`serde_json::from_reader` does). -/
def load_tasks (file : List SavedTask) : Option (List Task) :=
  file.mapM (fun st => (deserialize_date st.deadline).map
    (fun dl => ⟨st.description, st.completed, dl⟩))

/-- Every month has at most 31 days. -/
theorem daysInMonth_le (y : Int) (m : Nat) : daysInMonth y m ≤ 31 := by
  unfold daysInMonth
  split_ifs <;> omega

/-- Consuming the very character that is expected succeeds. -/
theorem expectChar_cons (c : Char) (l : List Char) :
    expectChar c (c :: l) = some l := by
  simp [expectChar]

/-- The ASCII code of a digit character. -/
theorem toNat_digitChar (d : Nat) (h : d < 10) :
    (digitChar d).toNat = 48 + d := by
  interval_cases d <;> rfl

/-- Reading back exactly what `padDigits` wrote recovers the number and
leaves the rest of the input untouched. -/
theorem readDigits_padDigits (k : Nat) : ∀ (n acc : Nat) (rest : List Char),
    n < 10 ^ k →
    readDigits k acc (padDigits k n ++ rest) = some (acc * 10 ^ k + n, rest) := by
  induction k with
  | zero =>
    intro n acc rest h
    have hn : n = 0 := by simpa using h
    subst hn
    simp [padDigits, readDigits]
  | succ k ih =>
    intro n acc rest h
    have hp : 0 < 10 ^ k := Nat.pos_pow_of_pos k (by omega)
    have hq : n / 10 ^ k < 10 := by
      apply Nat.div_lt_of_lt_mul
      rw [pow_succ] at h
      omega
    have hcond : 48 ≤ 48 + n / 10 ^ k ∧ 48 + n / 10 ^ k ≤ 57 :=
      ⟨Nat.le_add_right 48 _, by omega⟩
    have hc : (digitChar (n / 10 ^ k)).toNat = 48 + n / 10 ^ k :=
      toNat_digitChar _ hq
    simp only [padDigits, List.cons_append, readDigits, List.append_eq]
    rw [hc, if_pos hcond, Nat.add_sub_cancel_left,
      ih (n % 10 ^ k) _ rest (Nat.mod_lt _ hp)]
    simp only [Option.some.injEq, Prod.mk.injEq]
    refine ⟨?_, trivial⟩
    have hqr : 10 ^ k * (n / 10 ^ k) + n % 10 ^ k = n := Nat.div_add_mod n (10 ^ k)
    conv_rhs => rw [← hqr]
    rw [pow_succ]
    ring

/-- `readDigits_padDigits` at the very end of the input. -/
theorem readDigits_padDigits_nil (k n acc : Nat) (h : n < 10 ^ k) :
    readDigits k acc (padDigits k n) = some (acc * 10 ^ k + n, []) := by
  have hx := readDigits_padDigits k n acc [] h
  simpa using hx

/-- Parsing the formatted text of a valid datetime gives it back. -/
theorem parseDateTime_formatDateTime (t : DateTime) (h : t.Valid) :
    parseDateTime (formatDateTime t) = some t := by
  obtain ⟨⟨y, m, d⟩, hh, mi, s⟩ := t
  obtain ⟨hy0, hy1, hvalid, hh24, hmi60, hs60⟩ := h
  obtain ⟨hm1, hm2, hd1, hd2⟩ := hvalid
  dsimp only at hy0 hy1 hh24 hmi60 hs60 hm1 hm2 hd1 hd2
  have hdim := daysInMonth_le y m
  have hytn : y.toNat < 10 ^ 4 := by omega
  have hm100 : m < 10 ^ 2 := by omega
  have hd100 : d < 10 ^ 2 := by omega
  have hh100 : hh < 10 ^ 2 := by omega
  have hmi100 : mi < 10 ^ 2 := by omega
  have hs100 : s < 10 ^ 2 := by omega
  unfold formatDateTime parseDateTime
  dsimp only
  rw [readDigits_padDigits 4 y.toNat 0 _ hytn]
  simp only [Option.bind]
  rw [expectChar_cons]
  simp only [Option.bind]
  rw [readDigits_padDigits 2 m 0 _ hm100]
  simp only [Option.bind]
  rw [expectChar_cons]
  simp only [Option.bind]
  rw [readDigits_padDigits 2 d 0 _ hd100]
  simp only [Option.bind]
  rw [expectChar_cons]
  simp only [Option.bind]
  rw [readDigits_padDigits 2 hh 0 _ hh100]
  simp only [Option.bind]
  rw [expectChar_cons]
  simp only [Option.bind]
  rw [readDigits_padDigits 2 mi 0 _ hmi100]
  simp only [Option.bind]
  rw [expectChar_cons]
  simp only [Option.bind]
  rw [readDigits_padDigits_nil 2 s 0 hs100]
  simp only [Option.bind]
  simp only [Nat.zero_mul, Nat.zero_add]
  rw [Int.toNat_of_nonneg hy0]
  rw [if_pos ⟨trivial, ⟨hm1, hm2, hd1, hd2⟩, hh24, hmi60, hs60⟩]

/-- Round trip of the serde date codec pair on an optional deadline. -/
theorem deserialize_serialize (dl : Option DateTime)
    (h : ∀ dt, dl = some dt → dt.Valid) :
    deserialize_date (serialize_date dl) = some dl := by
  cases dl with
  | none => rfl
  | some dt =>
    have hv := h dt rfl
    show ((parseDateTime (String.mk (formatDateTime dt)).data).map some) = some (some dt)
    rw [show (String.mk (formatDateTime dt)).data = formatDateTime dt from rfl]
    rw [parseDateTime_formatDateTime dt hv]
    rfl

/-- C6: saving a store and loading the result yields exactly the tasks
that were not completed at save time, in the same order, with identical
description and deadline fields; completed tasks are dropped.  (Stated
for deadlines the `%Y-%m-%d %H:%M:%S` format represents: valid calendar
dates with four-digit years.) -/
theorem save_load_roundtrip (tasks : List Task)
    (h : ∀ t ∈ tasks, ∀ dt, t.deadline = some dt → dt.Valid) :
    load_tasks (save_tasks tasks) =
      some (tasks.filter (fun t => !t.completed)) := by
  induction tasks with
  | nil => rfl
  | cons t ts ih =>
    have hts := ih (fun t' ht' => h t' (List.mem_cons_of_mem _ ht'))
    have ht := h t (List.mem_cons_self t ts)
    by_cases hc : t.completed
    · simp only [save_tasks, List.filter_cons, hc] at hts ⊢
      simp only [Bool.not_true, Bool.false_eq_true, if_false]
      exact hts
    · simp only [save_tasks, List.filter_cons, Bool.not_eq_true'] at hts ⊢
      simp only [eq_false_of_ne_true (by simpa using hc), if_true]
      simp only [List.map_cons, load_tasks, List.mapM_cons,
        deserialize_serialize t.deadline ht]
      simp only [load_tasks] at hts
      rw [hts]
      rfl

/-- A concrete two-task store for the C6 witness: one open task with a
deadline, one completed task. -/
def c6_tasks : List Task :=
  [⟨"write report", false, some ⟨⟨2024, 2, 29⟩, 0, 0, 0⟩⟩,
   ⟨"done already", true, none⟩]

/-- Witness for C6: the completed task is dropped, the open one survives
with its deadline intact. -/
theorem save_load_roundtrip_witness :
    load_tasks (save_tasks c6_tasks) =
      some (c6_tasks.filter (fun t => !t.completed)) :=
  save_load_roundtrip c6_tasks (by decide)

end TodoRs
